import Mathlib

/-!
# Verification of the meeting-notes pipeline

Shallow embedding of the meeting-notes-processor repository:
the VBAN codec (src/transcriber/vban/vban_send.py and vban_recv.py),
the transcription appliance (src/transcriber/server/transcriber.py)
and the ingest daemon (src/meetingnotesd.py).

Conventions: raw bytes are modeled as `Nat` values below 256; byte strings
(packets, ASCII stream names) as `List Nat`.  Python text strings are
modeled as Lean `String`/`List Char`.  Machine integers use `Nat`/`Int`
with explicit `% 2^w` where the Python code masks.
-/

namespace MeetingNotes

/-! ## VBAN codec -/

/-- The 21-entry VBAN sample-rate table (`VBAN_SR_TABLE` in vban_send.py
and vban_recv.py — both modules declare the identical list). -/
def VBAN_SR_TABLE : List Nat :=
  [6000, 12000, 24000, 48000, 96000, 192000, 384000,
   8000, 16000, 32000, 64000, 128000, 256000, 512000,
   11025, 22050, 44100, 88200, 176400, 352800, 705600]

/-- The 4 magic bytes of `VBAN_HEADER_MAGIC = b"VBAN"`. -/
def vbanMagic : List Nat := [0x56, 0x42, 0x41, 0x4E]

/-- `struct.pack("<I", n)` for `n < 2^32`: 4 little-endian bytes. -/
def le4 (n : Nat) : List Nat :=
  [n % 256, n / 256 % 256, n / 65536 % 256, n / 16777216 % 256]

/-- `struct.unpack("<I", l)[0]` on a 4-byte string. -/
def unpackLE4 (l : List Nat) : Nat :=
  l.getD 0 0 + 256 * l.getD 1 0 + 65536 * l.getD 2 0 + 16777216 * l.getD 3 0

/-- `stream_name.encode("ascii")[:16].ljust(16, b"\x00")` from
`build_header` in vban_send.py: truncate to 16 bytes, pad with NULs. -/
def name16 (name : List Nat) : List Nat :=
  let t := name.take 16
  t ++ List.replicate (16 - t.length) 0

/-- `build_header(sr_idx, samples_per_frame, channels, frame_counter,
stream_name)` from vban_send.py.  Byte 4 is
`(sr_idx & 0x1F) | ((VBAN_PROTOCOL_AUDIO & 0x07) << 5)` with protocol 0,
i.e. `sr_idx % 32`; bytes 5 and 6 are `(value - 1) & 0xFF` computed in
Python's signed arithmetic (hence `Int.emod` so that an input of 0 yields
255 exactly as CPython does); byte 7 is
`(VBAN_DATATYPE_INT16 & 0x07) | ((VBAN_CODEC_PCM & 0x1F) << 3) = 1`.
The function performs no range validation anywhere. -/
def build_header (srIdx samples channels counter : Nat) (name : List Nat) :
    List Nat :=
  vbanMagic ++
    [srIdx % 32,
     (((samples : Int) - 1) % 256).toNat,
     (((channels : Int) - 1) % 256).toNat,
     1] ++
    name16 name ++
    le4 (counter % 4294967296)

/-- A parsed VBAN frame, the dict returned by `parse_header` in
vban_recv.py.  The decoded `stream_name` is kept as its ASCII byte list. -/
structure VBANFrame where
  sample_rate : Nat
  samples : Nat
  channels : Nat
  format : Nat
  codec : Nat
  stream_name : List Nat
  frame_counter : Nat
  deriving Repr, DecidableEq

/-- `parse_header(data)` from vban_recv.py.  Returns `none` when the
packet is shorter than 28 bytes, the magic differs, or the protocol bits
are nonzero; otherwise decodes every field.  `data[8:24].split(b"\x00")[0]`
is the bytes of the name region before the first NUL, and
`VBAN_SR_TABLE[sr_index] if sr_index < len(VBAN_SR_TABLE) else 0` maps an
out-of-table index to sample rate 0 rather than rejecting the packet. -/
def parse_header (data : List Nat) : Option VBANFrame :=
  if data.length < 28 then none
  else if data.take 4 ≠ vbanMagic then none
  else
    let srSub := data.getD 4 0
    let srIndex := srSub % 32
    let protocol := srSub / 32 % 8
    if protocol ≠ 0 then none
    else
      some
        { sample_rate :=
            if srIndex < VBAN_SR_TABLE.length then VBAN_SR_TABLE.getD srIndex 0
            else 0
          samples := data.getD 5 0 + 1
          channels := data.getD 6 0 + 1
          format := data.getD 7 0 % 8
          codec := data.getD 7 0 / 8 % 32
          stream_name := ((data.drop 8).take 16).takeWhile (fun b => b ≠ 0)
          frame_counter := unpackLE4 ((data.drop 24).take 4) }

/-! ### Codec lemmas -/

theorem name16_length (name : List Nat) : (name16 name).length = 16 := by
  simp [name16]

theorem build_header_length (srIdx samples channels counter : Nat)
    (name : List Nat) :
    (build_header srIdx samples channels counter name).length = 28 := by
  simp [build_header, vbanMagic, le4, name16_length]

theorem takeWhile_ne_zero_append (l l' : List Nat) (h : ∀ b ∈ l, b ≠ 0) :
    (l ++ l').takeWhile (fun b => b ≠ 0) =
      l ++ l'.takeWhile (fun b => b ≠ 0) := by
  induction l with
  | nil => simp
  | cons a t ih =>
      have ha : a ≠ 0 := h a (by simp)
      have iht := ih (fun b hb => h b (by simp [hb]))
      simp only [List.cons_append, List.takeWhile_cons]
      simp only [ha, decide_not, decide_eq_false_iff_not, not_false_iff,
        Bool.not_false, if_true, cond_true]
      simpa using iht

theorem takeWhile_ne_zero_replicate (k : Nat) :
    (List.replicate k 0).takeWhile (fun b : Nat => b ≠ 0) = [] := by
  cases k <;> simp [List.replicate, List.takeWhile_cons]

theorem unpackLE4_le4 (n : Nat) (h : n < 4294967296) :
    unpackLE4 (le4 n) = n := by
  simp [unpackLE4, le4, List.getD]
  omega

theorem getD_cons4 (a0 a1 a2 a3 a4 : Nat) (l : List Nat) :
    (a0 :: a1 :: a2 :: a3 :: a4 :: l).getD 4 0 = a4 := rfl

theorem getD_cons5 (a0 a1 a2 a3 a4 a5 : Nat) (l : List Nat) :
    (a0 :: a1 :: a2 :: a3 :: a4 :: a5 :: l).getD 5 0 = a5 := rfl

theorem getD_cons6 (a0 a1 a2 a3 a4 a5 a6 : Nat) (l : List Nat) :
    (a0 :: a1 :: a2 :: a3 :: a4 :: a5 :: a6 :: l).getD 6 0 = a6 := rfl

theorem getD_cons7 (a0 a1 a2 a3 a4 a5 a6 a7 : Nat) (l : List Nat) :
    (a0 :: a1 :: a2 :: a3 :: a4 :: a5 :: a6 :: a7 :: l).getD 7 0 = a7 := rfl

theorem drop8_cons (a0 a1 a2 a3 a4 a5 a6 a7 : Nat) (l : List Nat) :
    (a0 :: a1 :: a2 :: a3 :: a4 :: a5 :: a6 :: a7 :: l).drop 8 = l := rfl

theorem drop24_cons (a0 a1 a2 a3 a4 a5 a6 a7 : Nat) (l : List Nat) :
    (a0 :: a1 :: a2 :: a3 :: a4 :: a5 :: a6 :: a7 :: l).drop 24 = l.drop 16 :=
  rfl

theorem take4_cons (a0 a1 a2 a3 : Nat) (l : List Nat) :
    (a0 :: a1 :: a2 :: a3 :: l).take 4 = [a0, a1, a2, a3] := rfl

/-- The header produced by `build_header`, with any payload appended,
decomposed into an explicit byte sequence. -/
theorem build_header_decomp (srIdx samples channels counter : Nat)
    (name payload : List Nat) :
    build_header srIdx samples channels counter name ++ payload =
      0x56 :: 0x42 :: 0x41 :: 0x4E :: (srIdx % 32) ::
        (((samples : Int) - 1) % 256).toNat ::
        (((channels : Int) - 1) % 256).toNat :: 1 ::
        (name16 name ++ (le4 (counter % 4294967296) ++ payload)) := by
  simp only [build_header, vbanMagic, List.append_assoc, List.cons_append,
    List.nil_append]

/-- C1 — VBAN build-then-parse round trip: for all legal inputs
(`sr_idx ∈ [0,20]`, `samples ∈ [1,256]`, `channels ∈ [1,256]`,
`counter < 2^32`, ASCII NUL-free stream name of at most 16 bytes),
parsing the header produced by `build_header` — with any payload appended —
returns a frame whose sample rate is the 21-entry table at `sr_idx` and
whose samples, channels, stream name and frame counter are exactly the
build inputs. -/
theorem vban_build_parse_roundtrip
    (srIdx samples channels counter : Nat) (name payload : List Nat)
    (hsr : srIdx ≤ 20)
    (hs1 : 1 ≤ samples) (hs2 : samples ≤ 256)
    (hc1 : 1 ≤ channels) (hc2 : channels ≤ 256)
    (hctr : counter < 4294967296)
    (hlen : name.length ≤ 16)
    (hbyte : ∀ b ∈ name, b < 128 ∧ b ≠ 0) :
    parse_header (build_header srIdx samples channels counter name ++ payload) =
      some { sample_rate := VBAN_SR_TABLE.getD srIdx 0
             samples := samples
             channels := channels
             format := 1
             codec := 0
             stream_name := name
             frame_counter := counter } := by
  have hb5 : (((samples : Int) - 1) % 256).toNat = samples - 1 := by omega
  have hb6 : (((channels : Int) - 1) % 256).toNat = channels - 1 := by omega
  have hmod : srIdx % 32 = srIdx := Nat.mod_eq_of_lt (by omega)
  have hcmod : counter % 4294967296 = counter := Nat.mod_eq_of_lt hctr
  have htake : name.take 16 = name := List.take_of_length_le hlen
  rw [build_header_decomp]
  have hlength :
      ¬ ((0x56 :: 0x42 :: 0x41 :: 0x4E :: (srIdx % 32) ::
        (((samples : Int) - 1) % 256).toNat ::
        (((channels : Int) - 1) % 256).toNat :: 1 ::
        (name16 name ++ (le4 (counter % 4294967296) ++ payload))).length < 28) := by
    simp [name16_length, le4]
    omega
  rw [parse_header, if_neg hlength]
  have hmagic : ¬ ((0x56 :: 0x42 :: 0x41 :: 0x4E :: (srIdx % 32) ::
        (((samples : Int) - 1) % 256).toNat ::
        (((channels : Int) - 1) % 256).toNat :: 1 ::
        (name16 name ++ (le4 (counter % 4294967296) ++ payload))).take 4 ≠
        vbanMagic) := by
    simp [vbanMagic, List.take]
  rw [if_neg hmagic]
  simp only [getD_cons4, getD_cons5, getD_cons6, getD_cons7, drop8_cons,
    drop24_cons, hmod, hb5, hb6]
  have hproto : srIdx / 32 % 8 = 0 := by omega
  rw [if_neg (by simp [hproto])]
  have hname16 : name16 name = name ++ List.replicate (16 - name.length) 0 := by
    simp [name16, htake]
  have hdrop16 :
      (name16 name ++ (le4 (counter % 4294967296) ++ payload)).drop 16 =
        le4 (counter % 4294967296) ++ payload :=
    List.drop_left' (name16_length name)
  have htake16 :
      (name16 name ++ (le4 (counter % 4294967296) ++ payload)).take 16 =
        name16 name :=
    List.take_left' (name16_length name)
  have htake4 :
      (le4 (counter % 4294967296) ++ payload).take 4 = le4 (counter % 4294967296) := by
    simp [le4, List.take]
  rw [htake16, hdrop16, htake4, hcmod, unpackLE4_le4 counter hctr]
  have hnm : (name16 name).takeWhile (fun b => b ≠ 0) = name := by
    rw [hname16, takeWhile_ne_zero_append name _ (fun b hb => (hbyte b hb).2),
      takeWhile_ne_zero_replicate, List.append_nil]
  rw [hnm]
  have hsrlt : srIdx < VBAN_SR_TABLE.length := by
    simp [VBAN_SR_TABLE]
    omega
  simp only [if_pos hsrlt, Option.some.injEq, VBANFrame.mk.injEq, and_true,
    true_and, eq_self_iff_true]
  omega

/-- Witness for the C1 round trip at a concrete legal input. -/
theorem vban_build_parse_roundtrip_witness :
    parse_header (build_header 3 256 1 7 [77] ++ [9, 9]) =
      some { sample_rate := VBAN_SR_TABLE.getD 3 0
             samples := 256
             channels := 1
             format := 1
             codec := 0
             stream_name := [77]
             frame_counter := 7 } :=
  vban_build_parse_roundtrip 3 256 1 7 [77] [9, 9]
    (by decide) (by decide) (by decide) (by decide) (by decide) (by decide)
    (by decide) (by decide)

theorem parse_header_none_iff (data : List Nat) :
    parse_header data = none ↔
      data.length < 28 ∨ data.take 4 ≠ vbanMagic ∨
        data.getD 4 0 / 32 % 8 ≠ 0 := by
  simp only [parse_header]
  split_ifs <;> simp_all

theorem parse_header_out_of_table (data : List Nat) (f : VBANFrame)
    (hp : parse_header data = some f) (hsr : 21 ≤ data.getD 4 0 % 32) :
    f.sample_rate = 0 := by
  simp only [parse_header] at hp
  have hlt : ¬ (data.getD 4 0 % 32 < VBAN_SR_TABLE.length) := by
    simp only [VBAN_SR_TABLE, List.length_cons, List.length_nil]
    omega
  split_ifs at hp
  rw [← (Option.some.injEq _ _).mp hp]

/-- C3 counterexample — the claim "build fails on illegal inputs and parse
drops out-of-table sample-rate indices" is false at `sr_idx = 21`:
`build_header` happily returns a 28-byte header, and `parse_header`
returns a frame (with `sample_rate = 0`) instead of `none`. -/
theorem vban_reject_counterexample :
    (build_header 21 0 0 0 []).length = 28 ∧
    parse_header (build_header 21 1 1 0 []) =
      some { sample_rate := 0, samples := 1, channels := 1, format := 1,
             codec := 0, stream_name := [], frame_counter := 0 } := by
  constructor
  · decide
  · decide

/-- C3 amended — `build_header` performs no validation: for every input
(including `sr_idx > 20`, `samples`/`channels` outside `[1,256]`, names
longer than 16 bytes) it masks, truncates and returns a 28-byte header.
`parse_header` returns `none` exactly when the packet is shorter than 28
bytes, the magic is not `"VBAN"` or the protocol bits are nonzero; a
header whose sample-rate index is outside the 21-entry table is *not*
dropped — it parses to a frame with `sample_rate = 0`. -/
theorem vban_reject_amended :
    (∀ srIdx samples channels counter name,
      (build_header srIdx samples channels counter name).length = 28) ∧
    (∀ data, parse_header data = none ↔
      data.length < 28 ∨ data.take 4 ≠ vbanMagic ∨
        data.getD 4 0 / 32 % 8 ≠ 0) ∧
    (∀ data f, parse_header data = some f → 21 ≤ data.getD 4 0 % 32 →
      f.sample_rate = 0) :=
  ⟨build_header_length, parse_header_none_iff, parse_header_out_of_table⟩

/-- Witness for the amended C3 at concrete inputs. -/
theorem vban_reject_amended_witness :
    (build_header 25 300 300 99 [1, 2, 3]).length = 28 ∧
    parse_header [1, 2, 3] = none ∧
    VBANFrame.sample_rate
      { sample_rate := 0, samples := 1, channels := 1, format := 1,
        codec := 0, stream_name := [], frame_counter := 0 } = 0 :=
  ⟨vban_reject_amended.1 25 300 300 99 [1, 2, 3],
   (vban_reject_amended.2.1 [1, 2, 3]).mpr (Or.inl (by decide)),
   vban_reject_amended.2.2 (build_header 25 1 1 0 [])
     { sample_rate := 0, samples := 1, channels := 1, format := 1,
       codec := 0, stream_name := [], frame_counter := 0 }
     (by decide) (by decide)⟩

/-! ## Ingest daemon: slug normalization

`sanitize_filename` in meetingnotesd.py.  Python strings are modeled as
`List Char` at the ASCII level (every character the function can keep is
ASCII; `\s`, `str.strip` and `str.lower` are modeled on their ASCII
range). -/

/-- Python whitespace class `\s` / `str.strip()` on the ASCII range:
space, tab, newline, carriage return, vertical tab, form feed. -/
def pyIsSpace (c : Char) : Bool :=
  decide (c.toNat = 32 ∨ c.toNat = 9 ∨ c.toNat = 10 ∨ c.toNat = 13 ∨
    c.toNat = 11 ∨ c.toNat = 12)

/-- `str.lower()` on the ASCII range. -/
def pyLower (c : Char) : Char :=
  if 65 ≤ c.toNat ∧ c.toNat ≤ 90 then Char.ofNat (c.toNat + 32) else c

/-- The character class kept by `re.sub(r'[^a-z0-9\-_]', '', ...)`. -/
def isAllowed (c : Char) : Bool :=
  decide ((97 ≤ c.toNat ∧ c.toNat ≤ 122) ∨ (48 ≤ c.toNat ∧ c.toNat ≤ 57) ∨
    c = '-' ∨ c = '_')

def isDash (c : Char) : Bool := c == '-'

/-- Replace every maximal run of `p`-characters by a single `rep`,
i.e. Python `re.sub(p+, rep, s)`; the boolean records whether the
previous character was part of a run. -/
def collapseRun (p : Char → Bool) (rep : Char) : List Char → Bool → List Char
  | [], _ => []
  | c :: cs, inRun =>
    if p c then
      if inRun then collapseRun p rep cs true
      else rep :: collapseRun p rep cs true
    else c :: collapseRun p rep cs false

/-- Python `str.strip(class)`: drop leading and trailing `p`-characters. -/
def stripEnds (p : Char → Bool) (l : List Char) : List Char :=
  (l.dropWhile p).rdropWhile p

/-- `sanitize_filename` from meetingnotesd.py, stage by stage:
lowercase and strip whitespace, collapse whitespace runs to `-`, drop
characters outside `[a-z0-9\-_]`, collapse `-` runs, strip `-` from both
ends, cap at 50 characters (re-stripping a trailing `-`), and fall back
to `"untitled"` when empty. -/
def sanitize_filename_list (l : List Char) : List Char :=
  let s1 := stripEnds pyIsSpace (l.map pyLower)
  let s2 := collapseRun pyIsSpace '-' s1 false
  let s3 := s2.filter isAllowed
  let s4 := collapseRun isDash '-' s3 false
  let s5 := stripEnds isDash s4
  let s6 := if 50 < s5.length then (s5.take 50).rdropWhile isDash else s5
  if s6 = [] then "untitled".toList else s6

def sanitize_filename (s : String) : String :=
  String.mk (sanitize_filename_list s.data)

/-! ### Slug lemmas -/

theorem collapseRun_eq_self (p : Char → Bool) (rep : Char) (l : List Char)
    (b : Bool) (h : ∀ c ∈ l, p c = false) : collapseRun p rep l b = l := by
  induction l generalizing b with
  | nil => simp [collapseRun]
  | cons a t ih =>
      have ha : p a = false := h a (by simp)
      simp [collapseRun, ha, ih false (fun c hc => h c (by simp [hc]))]

theorem mem_collapseRun (p : Char → Bool) (rep : Char) (l : List Char)
    (b : Bool) (c : Char) (h : c ∈ collapseRun p rep l b) :
    c ∈ l ∨ c = rep := by
  induction l generalizing b with
  | nil => simp [collapseRun] at h
  | cons a t ih =>
      simp only [collapseRun] at h
      by_cases ha : p a
      · simp only [ha, if_true] at h
        by_cases hb : b
        · simp only [hb, if_true] at h
          rcases ih true h with h' | h'
          · exact Or.inl (by simp [h'])
          · exact Or.inr h'
        · simp only [hb, if_false] at h
          rcases List.mem_cons.mp h with h' | h'
          · exact Or.inr h'
          · rcases ih true h' with h'' | h''
            · exact Or.inl (by simp [h''])
            · exact Or.inr h''
      · simp only [ha, if_false] at h
        rcases List.mem_cons.mp h with h' | h'
        · exact Or.inl (by simp [h'])
        · rcases ih false h' with h'' | h''
          · exact Or.inl (by simp [h''])
          · exact Or.inr h''

/-- No two adjacent hyphens. -/
def NoTwoDashes (l : List Char) : Prop :=
  List.Chain' (fun a b => ¬(a = '-' ∧ b = '-')) l

theorem collapseRun_dash_chain (l : List Char) (b : Bool) :
    NoTwoDashes (collapseRun isDash '-' l b) ∧
      (b = true → (collapseRun isDash '-' l b).head? ≠ some '-') := by
  induction l generalizing b with
  | nil => simp [collapseRun, NoTwoDashes]
  | cons a t ih =>
      by_cases ha : isDash a
      · cases b with
        | true =>
            have h1 := (ih true).1
            have h2 := (ih true).2 rfl
            simpa [collapseRun, ha] using ⟨h1, h2⟩
        | false =>
            have h1 := (ih true).1
            have h2 := (ih true).2 rfl
            refine ⟨?_, by simp⟩
            have hoc : collapseRun isDash '-' (a :: t) false =
                '-' :: collapseRun isDash '-' t true := by
              simp [collapseRun, ha]
            rw [hoc, NoTwoDashes, List.chain'_cons']
            refine ⟨fun y hy hcon => h2 ?_, h1⟩
            rw [hy, hcon.2]
      · have hane : a ≠ '-' := fun h => ha (by simp [isDash, h])
        have hoc : collapseRun isDash '-' (a :: t) b =
            a :: collapseRun isDash '-' t false := by
          cases b <;> simp [collapseRun, ha]
        refine ⟨?_, ?_⟩
        · rw [hoc, NoTwoDashes, List.chain'_cons']
          exact ⟨fun y _ hcon => hane hcon.1, (ih false).1⟩
        · intro _
          rw [hoc, List.head?_cons]
          intro hcon
          exact hane ((Option.some.injEq _ _).mp hcon)

theorem collapseRun_dash_eq_self (l : List Char) (b : Bool)
    (hc : NoTwoDashes l) (hb : b = true → l.head? ≠ some '-') :
    collapseRun isDash '-' l b = l := by
  induction l generalizing b with
  | nil => simp [collapseRun]
  | cons a t ih =>
      by_cases ha : isDash a
      · have ha' : a = '-' := by simpa [isDash] using ha
        cases b with
        | true => exact absurd (by simp [ha']) (hb rfl)
        | false =>
            have hchain := List.chain'_cons'.mp hc
            have hhead : t.head? ≠ some '-' := fun hsome =>
              hchain.1 '-' hsome ⟨ha', rfl⟩
            have hoc : collapseRun isDash '-' (a :: t) false =
                '-' :: collapseRun isDash '-' t true := by
              simp [collapseRun, ha]
            rw [hoc, ih true hchain.2 (fun _ => hhead), ha']
      · have hoc : collapseRun isDash '-' (a :: t) b =
            a :: collapseRun isDash '-' t false := by
          cases b <;> simp [collapseRun, ha]
        rw [hoc, ih false (List.chain'_cons'.mp hc).2 (by simp)]

theorem head?_dropWhile_not (p : Char → Bool) (l : List Char) (c : Char)
    (h : (l.dropWhile p).head? = some c) : p c = false := by
  induction l with
  | nil => simp at h
  | cons a t ih =>
      by_cases hp : p a
      · rw [List.dropWhile_cons, if_pos hp] at h
        exact ih h
      · rw [List.dropWhile_cons, if_neg hp, List.head?_cons] at h
        rw [← (Option.some.injEq _ _).mp h]
        exact Bool.eq_false_iff.mpr hp

theorem getLast?_rdropWhile_not (p : Char → Bool) (l : List Char) (c : Char)
    (h : (l.rdropWhile p).getLast? = some c) : p c = false := by
  rw [List.rdropWhile, List.getLast?_reverse] at h
  exact head?_dropWhile_not p l.reverse c h

/-- Invariants of a normalized slug: only `[a-z0-9_-]`, no adjacent
hyphens, no hyphen at either end, at most 50 characters. -/
def GoodSlug (l : List Char) : Prop :=
  (∀ c ∈ l, isAllowed c = true) ∧ NoTwoDashes l ∧
    l.head? ≠ some '-' ∧ l.getLast? ≠ some '-' ∧ l.length ≤ 50

instance (l : List Char) : Decidable (GoodSlug l) :=
  inferInstanceAs (Decidable ((∀ c ∈ l, isAllowed c = true) ∧
    List.Chain' (fun a b => ¬(a = '-' ∧ b = '-')) l ∧
    l.head? ≠ some '-' ∧ l.getLast? ≠ some '-' ∧ l.length ≤ 50))

theorem pyLower_allowed (c : Char) (h : isAllowed c = true) :
    pyLower c = c := by
  have h' := of_decide_eq_true h
  have hno : ¬(65 ≤ c.toNat ∧ c.toNat ≤ 90) := by
    rcases h' with h' | h' | h' | h'
    · omega
    · omega
    · subst h'; decide
    · subst h'; decide
  simp [pyLower, hno]

theorem pyIsSpace_allowed (c : Char) (h : isAllowed c = true) :
    pyIsSpace c = false := by
  have h' := of_decide_eq_true h
  apply decide_eq_false
  have h45 : ('-' : Char).toNat = 45 := by decide
  have h95 : ('_' : Char).toNat = 95 := by decide
  rcases h' with h' | h' | h' | h'
  · omega
  · omega
  · rw [h']; omega
  · rw [h']; omega

theorem map_pyLower_allowed (l : List Char)
    (h : ∀ c ∈ l, isAllowed c = true) : l.map pyLower = l := by
  induction l with
  | nil => rfl
  | cons a t ih =>
      rw [List.map_cons, pyLower_allowed a (h a (by simp)),
        ih (fun c hc => h c (by simp [hc]))]

theorem dropWhile_eq_self_of_head (p : Char → Bool) (l : List Char)
    (h : ∀ c, l.head? = some c → p c = false) : l.dropWhile p = l := by
  cases l with
  | nil => rfl
  | cons a t => rw [List.dropWhile_cons, if_neg (by simp [h a rfl])]

theorem rdropWhile_eq_self_of_getLast (p : Char → Bool) (l : List Char)
    (h : ∀ c, l.getLast? = some c → p c = false) : l.rdropWhile p = l := by
  rw [List.rdropWhile,
    dropWhile_eq_self_of_head p l.reverse
      (fun c hc => h c (by rwa [List.head?_reverse] at hc)),
    List.reverse_reverse]

theorem stripEnds_eq_self (p : Char → Bool) (l : List Char)
    (hh : ∀ c, l.head? = some c → p c = false)
    (hl : ∀ c, l.getLast? = some c → p c = false) : stripEnds p l = l := by
  rw [stripEnds, dropWhile_eq_self_of_head p l hh,
    rdropWhile_eq_self_of_getLast p l hl]

theorem rdropWhilePre (p : Char → Bool) (l : List Char) :
    l.rdropWhile p <+: l :=
  List.rdropWhile_prefix p l

theorem takePre (n : Nat) (l : List Char) : l.take n <+: l :=
  List.take_prefix n l

theorem chain'Pre {R : Char → Char → Prop} {l₁ l₂ : List Char}
    (h : List.Chain' R l₂) (hp : l₁ <+: l₂) : List.Chain' R l₁ :=
  List.Chain'.prefix h hp

theorem mem_stripEnds (p : Char → Bool) (l : List Char) (c : Char)
    (h : c ∈ stripEnds p l) : c ∈ l :=
  (List.dropWhile_suffix p).subset ((rdropWhilePre p _).subset h)

theorem noTwoDashes_stripEnds (p : Char → Bool) (l : List Char)
    (h : NoTwoDashes l) : NoTwoDashes (stripEnds p l) :=
  chain'Pre (h.suffix (List.dropWhile_suffix p)) (rdropWhilePre p _)

theorem head?_of_isPre (l₁ l₂ : List Char) (c : Char) (h : l₁ <+: l₂)
    (hc : l₁.head? = some c) : l₂.head? = some c := by
  obtain ⟨t, rfl⟩ := h
  cases l₁ with
  | nil => simp at hc
  | cons a u => simpa using hc

theorem head?_stripEnds_not (p : Char → Bool) (l : List Char) (c : Char)
    (h : (stripEnds p l).head? = some c) : p c = false :=
  head?_dropWhile_not p l c
    (head?_of_isPre _ _ c (rdropWhilePre p _) h)

theorem getLast?_stripEnds_not (p : Char → Bool) (l : List Char) (c : Char)
    (h : (stripEnds p l).getLast? = some c) : p c = false :=
  getLast?_rdropWhile_not p _ c h

theorem goodSlug_untitled : GoodSlug ("untitled".toList) := by
  have h : "untitled".toList = ['u', 'n', 't', 'i', 't', 'l', 'e', 'd'] := rfl
  refine ⟨by decide, ?_, by decide, by decide, by decide⟩
  show List.Chain' (fun a b => ¬(a = '-' ∧ b = '-')) ("untitled".toList)
  rw [h]
  simp [List.chain'_cons]

/-- The output of `sanitize_filename_list` is a nonempty normalized
slug. -/
theorem sanitize_filename_list_good (l : List Char) :
    GoodSlug (sanitize_filename_list l) ∧ sanitize_filename_list l ≠ [] := by
  simp only [sanitize_filename_list]
  set s1 := stripEnds pyIsSpace (l.map pyLower) with hs1
  set s2 := collapseRun pyIsSpace '-' s1 false with hs2
  set s3 := s2.filter isAllowed with hs3
  set s4 := collapseRun isDash '-' s3 false with hs4
  set s5 := stripEnds isDash s4 with hs5
  have h3 : ∀ c ∈ s3, isAllowed c = true := fun c hc =>
    (List.mem_filter.mp hc).2
  have h4 : ∀ c ∈ s4, isAllowed c = true := by
    intro c hc
    rcases mem_collapseRun isDash '-' s3 false c hc with h | h
    · exact h3 c h
    · rw [h]; decide
  have h4chain : NoTwoDashes s4 := (collapseRun_dash_chain s3 false).1
  have h5 : ∀ c ∈ s5, isAllowed c = true := fun c hc =>
    h4 c (mem_stripEnds isDash s4 c hc)
  have h5chain : NoTwoDashes s5 := noTwoDashes_stripEnds isDash s4 h4chain
  have h5head : s5.head? ≠ some '-' := by
    intro hsome
    have := head?_stripEnds_not isDash s4 '-' hsome
    simp [isDash] at this
  have h5last : s5.getLast? ≠ some '-' := by
    intro hsome
    have := getLast?_stripEnds_not isDash s4 '-' hsome
    simp [isDash] at this
  by_cases h50 : 50 < s5.length
  · set s6 := (s5.take 50).rdropWhile isDash with hs6
    have hpre : s6 <+: s5 :=
      (rdropWhilePre isDash _).trans (takePre 50 s5)
    have h6 : ∀ c ∈ s6, isAllowed c = true := fun c hc =>
      h5 c (hpre.subset hc)
    have h6chain : NoTwoDashes s6 := chain'Pre h5chain hpre
    have h6head : s6.head? ≠ some '-' := fun hsome =>
      h5head (head?_of_isPre _ _ '-' hpre hsome)
    have h6last : s6.getLast? ≠ some '-' := by
      intro hsome
      have := getLast?_rdropWhile_not isDash (s5.take 50) '-' hsome
      simp [isDash] at this
    have h6len : s6.length ≤ 50 := by
      have h1 := (rdropWhilePre isDash (s5.take 50)).length_le
      rw [← hs6] at h1
      have h2 : (s5.take 50).length ≤ 50 := by simp
      omega
    rw [if_pos h50]
    by_cases hnil : s6 = []
    · rw [if_pos hnil]
      exact ⟨goodSlug_untitled, by decide⟩
    · rw [if_neg hnil]
      exact ⟨⟨h6, h6chain, h6head, h6last, h6len⟩, hnil⟩
  · rw [if_neg h50]
    have h5len : s5.length ≤ 50 := by omega
    by_cases hnil : s5 = []
    · rw [if_pos hnil]
      exact ⟨goodSlug_untitled, by decide⟩
    · rw [if_neg hnil]
      exact ⟨⟨h5, h5chain, h5head, h5last, h5len⟩, hnil⟩

/-- Every nonempty normalized slug is a fixed point of
`sanitize_filename_list`. -/
theorem sanitize_filename_list_fixed (l : List Char) (hg : GoodSlug l)
    (hne : l ≠ []) : sanitize_filename_list l = l := by
  obtain ⟨hall, hchain, hhead, hlast, hlen⟩ := hg
  have hheadsp : ∀ c, l.head? = some c → pyIsSpace c = false := fun c hc =>
    pyIsSpace_allowed c (hall c (List.mem_of_mem_head? hc))
  have hlastsp : ∀ c, l.getLast? = some c → pyIsSpace c = false := fun c hc =>
    pyIsSpace_allowed c (hall c (List.mem_of_getLast?_eq_some hc))
  have hheadd : ∀ c, l.head? = some c → isDash c = false := by
    intro c hc
    have : c ≠ '-' := fun h => hhead (h ▸ hc)
    simpa [isDash] using this
  have hlastd : ∀ c, l.getLast? = some c → isDash c = false := by
    intro c hc
    have : c ≠ '-' := fun h => hlast (h ▸ hc)
    simpa [isDash] using this
  simp only [sanitize_filename_list]
  rw [map_pyLower_allowed l hall, stripEnds_eq_self pyIsSpace l hheadsp hlastsp,
    collapseRun_eq_self pyIsSpace '-' l false
      (fun c hc => pyIsSpace_allowed c (hall c hc)),
    List.filter_eq_self.mpr hall,
    collapseRun_dash_eq_self l false hchain (by simp),
    stripEnds_eq_self isDash l hheadd hlastd,
    if_neg (show ¬(50 < l.length) by omega), if_neg hne]

/-- C9 — slug normalization is idempotent:
`sanitize_filename (sanitize_filename x) = sanitize_filename x` for every
input string. -/
theorem sanitize_filename_idempotent (s : String) :
    sanitize_filename (sanitize_filename s) = sanitize_filename s := by
  have hdata : ∀ x : List Char, (String.mk x).data = x := fun _ => rfl
  simp only [sanitize_filename, hdata]
  rw [sanitize_filename_list_fixed _ (sanitize_filename_list_good s.data).1
    (sanitize_filename_list_good s.data).2]

/-! ## Hallucination filter

`_remove_hallucinated_lines` in src/transcriber/server/transcriber.py. -/

/-- The regex character class `[\d:.]`. -/
def isTsChar (c : Char) : Bool := c.isDigit || c == ':' || c == '.'

/-- One anchored application of
`_TS_RE = ^\[[\d:.]+\s*-->\s*[\d:.]+\]\s*`: `some rest` when the line
starts with a timestamp (`rest` is the line after the match),
`none` otherwise.  The character classes `[\d:.]`, `\s` and the literal
characters are pairwise disjoint, so greedy maximal munch implements the
regex exactly. -/
def tsMatch (l : List Char) : Option (List Char) :=
  match l with
  | '[' :: rest =>
    if (rest.takeWhile isTsChar).isEmpty then none
    else
      match (rest.dropWhile isTsChar).dropWhile pyIsSpace with
      | '-' :: '-' :: '>' :: r3 =>
        let r4 := r3.dropWhile pyIsSpace
        if (r4.takeWhile isTsChar).isEmpty then none
        else
          match r4.dropWhile isTsChar with
          | ']' :: r6 => some (r6.dropWhile pyIsSpace)
          | _ => none
      | _ => none
  | _ => none

/-- Line normalization `_TS_RE.sub("", line).strip()`. -/
def normLine (s : String) : String :=
  String.mk (stripEnds pyIsSpace ((tsMatch s.data).getD s.data))

/-- The loop of `_remove_hallucinated_lines`: the state is the previous
run's normalized text (`prev_text`, `none` initially), the current run
length, the pending lines of the current run, and the lines kept so far.
At each flush a run is kept iff `0 < run_length < 3`
(`_HALLUCINATION_REPEAT_THRESHOLD = 3`). -/
def rhLoop :
    List String → Option String → Nat → List String → List String →
      List String
  | [], _, rl, pending, kept =>
      if 0 < rl ∧ rl < 3 then kept ++ pending else kept
  | line :: ls, prev, rl, pending, kept =>
      let s := normLine line
      if prev = some s ∧ s ≠ "" then
        rhLoop ls prev (rl + 1) (pending ++ [line]) kept
      else
        rhLoop ls (some s) 1 [line]
          (if 0 < rl ∧ rl < 3 then kept ++ pending else kept)

/-- `_remove_hallucinated_lines(transcript)`. -/
def remove_hallucinated_lines (t : String) : String :=
  String.intercalate "\n" (rhLoop (t.splitOn "\n") none 0 [] [])

/-- Declarative run grouping: consecutive lines with equal *nonempty*
normalized text form one group; a line whose normalized text is empty
never joins a run.  `pend` is the (nonempty) group being built, all of
whose lines normalize to `s`. -/
def runsAux : List String → String → List String → List (List String)
  | [], _, pend => [pend]
  | l :: ls, s, pend =>
      if normLine l = s ∧ s ≠ "" then runsAux ls s (pend ++ [l])
      else pend :: runsAux ls (normLine l) [l]

/-- Partition of the transcript lines into maximal runs. -/
def runsSpec : List String → List (List String)
  | [] => []
  | l :: ls => runsAux ls (normLine l) [l]

theorem runsAux_join (ls : List String) (s : String) (pend : List String) :
    (runsAux ls s pend).flatten = pend ++ ls := by
  induction ls generalizing s pend with
  | nil => simp [runsAux]
  | cons l ls ih =>
      by_cases hc : normLine l = s ∧ s ≠ ""
      · rw [runsAux, if_pos hc, ih, List.append_assoc]
        rfl
      · rw [runsAux, if_neg hc, List.flatten_cons, ih]
        rfl

theorem runsSpec_join (ls : List String) : (runsSpec ls).flatten = ls := by
  cases ls with
  | nil => rfl
  | cons l ls => rw [runsSpec, runsAux_join]; rfl

theorem runsAux_head (ls : List String) (s : String) (pend : List String) :
    ∃ g' gs, runsAux ls s pend = (pend ++ g') :: gs := by
  induction ls generalizing pend with
  | nil => exact ⟨[], [], by simp [runsAux]⟩
  | cons l ls ih =>
      by_cases hc : normLine l = s ∧ s ≠ ""
      · obtain ⟨g', gs, h⟩ := ih (pend ++ [l])
        refine ⟨[l] ++ g', gs, ?_⟩
        rw [runsAux, if_pos hc, h, List.append_assoc]
      · exact ⟨[], runsAux ls (normLine l) [l],
          by rw [runsAux, if_neg hc]; simp⟩

theorem headI_mem_of_ne_nil (l : List String) (h : l ≠ []) :
    l.headI ∈ l := by
  cases l with
  | nil => exact absurd rfl h
  | cons a t => simp [List.headI]

theorem runsAux_groups (ls : List String) (s : String) (pend : List String)
    (hp : pend ≠ []) (hall : ∀ l ∈ pend, normLine l = s)
    (hsp : s = "" → pend.length = 1) :
    ∀ g ∈ runsAux ls s pend, g ≠ [] ∧
      (∀ l ∈ g, normLine l = normLine g.headI) ∧
      (normLine g.headI = "" → g.length = 1) := by
  induction ls generalizing s pend with
  | nil =>
      intro g hg
      rw [runsAux, List.mem_singleton] at hg
      subst hg
      have hhead : normLine g.headI = s :=
        hall g.headI (headI_mem_of_ne_nil _ hp)
      exact ⟨hp, fun l hl => by rw [hall l hl, hhead],
        fun he => hsp (by rw [← hhead, he])⟩
  | cons l ls ih =>
      intro g hg
      rw [runsAux] at hg
      by_cases hc : normLine l = s ∧ s ≠ ""
      · rw [if_pos hc] at hg
        refine ih s (pend ++ [l]) (by simp) ?_ (fun he => absurd he hc.2) g hg
        intro x hx
        rcases List.mem_append.mp hx with hx | hx
        · exact hall x hx
        · rw [List.mem_singleton.mp hx]; exact hc.1
      · rw [if_neg hc] at hg
        rcases List.mem_cons.mp hg with hg | hg
        · subst hg
          have hhead : normLine g.headI = s :=
            hall g.headI (headI_mem_of_ne_nil _ hp)
          exact ⟨hp, fun x hx => by rw [hall x hx, hhead],
            fun he => hsp (by rw [← hhead, he])⟩
        · exact ih (normLine l) [l] (by simp) (by simp) (by simp) g hg

theorem runsAux_chain (ls : List String) (s : String) (pend : List String)
    (hp : pend ≠ []) (hk : normLine pend.headI = s) :
    List.Chain'
      (fun g₁ g₂ => ¬(normLine g₁.headI = normLine g₂.headI ∧
        normLine g₁.headI ≠ ""))
      (runsAux ls s pend) := by
  induction ls generalizing s pend with
  | nil => rw [runsAux]; exact List.chain'_singleton pend
  | cons l ls ih =>
      rw [runsAux]
      by_cases hc : normLine l = s ∧ s ≠ ""
      · rw [if_pos hc]
        refine ih s (pend ++ [l]) (by simp) ?_
        cases pend with
        | nil => exact absurd rfl hp
        | cons a t => simpa using hk
      · rw [if_neg hc]
        rw [List.chain'_cons']
        refine ⟨?_, ih (normLine l) [l] (by simp) (by simp)⟩
        intro g hg hcon
        obtain ⟨g', gs, hdec⟩ := runsAux_head ls (normLine l) [l]
        rw [hdec] at hg
        rw [List.head?_cons] at hg
        have hgval : g = [l] ++ g' := ((Option.some.injEq _ _).mp hg).symm
        have hkey : normLine g.headI = normLine l := by
          rw [hgval]; rfl
        rw [hk, hkey] at hcon
        exact hc ⟨hcon.1.symm, hcon.2⟩

theorem rhLoop_eq (ls : List String) (s : String) (pend kept : List String)
    (hp : pend ≠ []) :
    rhLoop ls (some s) pend.length pend kept =
      kept ++
        ((runsAux ls s pend).filter
          (fun g => decide (g.length < 3))).flatten := by
  induction ls generalizing s pend kept with
  | nil =>
      rw [rhLoop, runsAux]
      have h0 : 0 < pend.length := List.length_pos.mpr hp
      by_cases h3 : pend.length < 3
      · rw [if_pos ⟨h0, h3⟩]
        simp [h3]
      · rw [if_neg (by omega)]
        simp [h3]
  | cons l ls ih =>
      rw [rhLoop, runsAux]
      by_cases hc : normLine l = s ∧ s ≠ ""
      · have hc' : (some s = some (normLine l) ∧ normLine l ≠ "") := by
          refine ⟨by rw [hc.1], ?_⟩
          rw [hc.1]; exact hc.2
        rw [if_pos hc', if_pos hc]
        have hlen : pend.length + 1 = (pend ++ [l]).length := by simp
        rw [hlen, ih s (pend ++ [l]) kept (by simp)]
      · have hc' : ¬(some s = some (normLine l) ∧ normLine l ≠ "") := by
          intro hcon
          have heq : normLine l = s := ((Option.some.injEq _ _).mp hcon.1).symm
          exact hc ⟨heq, by rw [heq] at hcon; exact hcon.2⟩
        rw [if_neg hc', if_neg hc]
        have h1 : (1 : Nat) = ([l] : List String).length := rfl
        rw [h1, ih (normLine l) [l] _ (by simp)]
        have h0 : 0 < pend.length := List.length_pos.mpr hp
        by_cases h3 : pend.length < 3
        · rw [if_pos ⟨h0, h3⟩]
          simp [h3, List.append_assoc]
        · rw [if_neg (by omega)]
          simp [h3]

/-- C2 — hallucination filter: the output of
`_remove_hallucinated_lines` is exactly the input lines regrouped into
maximal runs of equal nonempty normalized text, with every run of length
≥ 3 dropped entirely and every shorter run kept verbatim.  Moreover the
grouping `runsSpec` is a partition of the input lines into nonempty
consecutive groups of uniform normalized text, maximal in the sense that
adjacent groups never share a nonempty normalized text, and a line whose
normalized text is empty (blank or whitespace-only) always forms a group
of length 1 — hence is never dropped. -/
theorem hallucination_filter_correct (t : String) :
    remove_hallucinated_lines t =
      String.intercalate "\n"
        (((runsSpec (t.splitOn "\n")).filter
          (fun g => decide (g.length < 3))).flatten) ∧
    (runsSpec (t.splitOn "\n")).flatten = t.splitOn "\n" ∧
    (∀ g ∈ runsSpec (t.splitOn "\n"), g ≠ [] ∧
      (∀ l ∈ g, normLine l = normLine g.headI) ∧
      (normLine g.headI = "" → g.length = 1)) ∧
    List.Chain'
      (fun g₁ g₂ => ¬(normLine g₁.headI = normLine g₂.headI ∧
        normLine g₁.headI ≠ ""))
      (runsSpec (t.splitOn "\n")) := by
  refine ⟨?_, runsSpec_join _, ?_, ?_⟩
  · rw [remove_hallucinated_lines]
    cases hls : t.splitOn "\n" with
    | nil => rfl
    | cons l ls =>
        rw [runsSpec]
        have h1 : (0 : Nat) < 0 ∧ (0 : Nat) < 3 ↔ False := by simp
        rw [rhLoop]
        rw [if_neg (by simp)]
        have h2 : (1 : Nat) = ([l] : List String).length := rfl
        rw [if_neg (by simp), h2, rhLoop_eq ls (normLine l) [l] [] (by simp)]
        rfl
  · cases hls : t.splitOn "\n" with
    | nil => intro g hg; simp [runsSpec] at hg
    | cons l ls =>
        rw [runsSpec]
        exact runsAux_groups ls (normLine l) [l] (by simp) (by simp) (by simp)
  · cases hls : t.splitOn "\n" with
    | nil => simp [runsSpec]
    | cons l ls =>
        rw [runsSpec]
        exact runsAux_chain ls (normLine l) [l] (by simp) rfl

/-! ## Ingest daemon: the `/webhook` endpoint

`webhook` and `_build_transcript_header` in meetingnotesd.py.  The
request is modeled after JSON parsing (a non-JSON request is rejected
with 400 before any of the logic below).  The `datetime` library is an
external collaborator and is passed in as a `TimeEnv`. -/

/-- The JSON payload of a `/webhook` request; absent keys are `none`. -/
structure WebhookPayload where
  title : Option String
  transcript : Option String
  meeting_start : Option String
  meeting_end : Option String
  start_time : Option String
  end_time : Option String
  duration : Option Int
  recording_source : Option String
  deriving Repr, DecidableEq

/-- Python truthiness of an optional string (`None` and `""` falsy). -/
def truthyStr : Option String → Bool
  | none => false
  | some s => s ≠ ""

/-- Python `a or b` on optional strings. -/
def pyOrStr (a b : Option String) : Option String :=
  if truthyStr a then a else b

/-- The slice of the `datetime` library used by
`_build_transcript_header`: the receipt time rendered by `isoformat()`,
`(now - timedelta(seconds=d)).isoformat()`, and
`(fromisoformat(s) + timedelta(seconds=d)).isoformat()` — the last one
failing (`ValueError`/`TypeError`) as `none`. -/
structure TimeEnv where
  nowIso : String
  nowMinusIso : Int → String
  parseAddIso : String → Int → Option String

/-- The timing entries of the front-matter dict built by
`_build_transcript_header` (its state after the `duration` branches, the
local `header` before the fallback and the source/receipt keys). -/
def headerTiming (env : TimeEnv) (p : WebhookPayload) :
    List (String × String) :=
  let ms := pyOrStr p.meeting_start p.start_time
  let me := pyOrStr p.meeting_end p.end_time
  let durTruthy : Bool := match p.duration with
    | none => false
    | some d => decide (d ≠ 0)
  let h1 : List (String × String) :=
    (if truthyStr ms then [("meeting_start", ms.getD "")] else []) ++
      (if truthyStr me then [("meeting_end", me.getD "")] else [])
  if durTruthy ∧ ¬(truthyStr ms) ∧ ¬(truthyStr me) then
    h1 ++ [("meeting_start", env.nowMinusIso (p.duration.getD 0)),
           ("meeting_end", env.nowIso)]
  else if durTruthy ∧ truthyStr ms ∧ ¬(truthyStr me) then
    match env.parseAddIso (ms.getD "") (p.duration.getD 0) with
    | some v => h1 ++ [("meeting_end", v)]
    | none => h1
  else h1

/-- The full front-matter dict built by `_build_transcript_header`, as
an association list in Python dict insertion order: the timing entries,
the receipt-time fallback when neither timing key was produced, then
`recording_source` and `received_at`. -/
def headerEntries (env : TimeEnv) (p : WebhookPayload) :
    List (String × String) :=
  (if (headerTiming env p).lookup "meeting_start" = none ∧
      (headerTiming env p).lookup "meeting_end" = none
   then headerTiming env p ++ [("meeting_end", env.nowIso)]
   else headerTiming env p) ++
    [("recording_source", p.recording_source.getD "macwhisper"),
     ("received_at", env.nowIso)]

/-- Python `'\n'.join(lines)`. -/
def joinNL : List String → String
  | [] => ""
  | [x] => x
  | x :: y :: xs => x ++ "\n" ++ joinNL (y :: xs)

/-- `_build_transcript_header(data, transcript)`:
`'\n'.join(['---'] + [f'{key}: {value}' ...] + ['---', '']) + transcript`. -/
def build_transcript_header (env : TimeEnv) (p : WebhookPayload)
    (transcript : String) : String :=
  joinNL (["---"] ++
    (headerEntries env p).map (fun kv => kv.1 ++ ": " ++ kv.2) ++
    ["---", ""]) ++ transcript

/-- `transcript.lstrip().startswith('---')`: after dropping leading
whitespace the first three characters are `---`. -/
def startsWithDashes (s : String) : Bool :=
  match s.data.dropWhile pyIsSpace with
  | '-' :: '-' :: '-' :: _ => true
  | _ => false

/-- `not transcript or not transcript.strip()`: the transcript is empty
or whitespace-only. -/
def strippedEmpty (s : String) : Bool :=
  (stripEnds pyIsSpace s.data).isEmpty

/-- `len(s.encode('utf-8'))`: the UTF-8 byte length. -/
def utf8Len (s : String) : Nat := (s.data.map Char.utf8Size).sum

def MAX_TRANSCRIPT_SIZE : Nat := 256 * 1024

/-- Outcome of a `/webhook` request: the HTTP error class, or success
carrying the exact file content written to the inbox. -/
inductive WebhookResult where
  | badRequest (msg : String)
  | tooLarge
  | success (written : String)
  deriving Repr, DecidableEq

/-- The `/webhook` endpoint of meetingnotesd.py on a JSON request:
field validation (400), header injection when the transcript does not
start with `---`, the 256 KiB size check (413, hit before anything is
written), then the file write.  The git/processing steps that follow the
write affect neither the stored bytes nor this success status. -/
def webhook (env : TimeEnv) (p : WebhookPayload) : WebhookResult :=
  match p.title with
  | none => .badRequest "Missing required field: title"
  | some _ =>
    match p.transcript with
    | none => .badRequest "Missing required field: transcript"
    | some transcript0 =>
      if strippedEmpty transcript0 then .badRequest "Transcript cannot be empty"
      else
        let transcript :=
          if startsWithDashes transcript0 then transcript0
          else build_transcript_header env p transcript0
        if MAX_TRANSCRIPT_SIZE < utf8Len transcript then .tooLarge
        else .success transcript

/-! ### Webhook lemmas -/

theorem joinNL_cons_of_ne (x : String) (xs : List String) (h : xs ≠ []) :
    joinNL (x :: xs) = x ++ "\n" ++ joinNL xs := by
  cases xs with
  | nil => exact absurd rfl h
  | cons y ys => rfl

theorem joinNL_wrap (es : List String) :
    joinNL (["---"] ++ es ++ ["---", ""]) =
      "---\n" ++ es.foldr (fun e acc => e ++ "\n" ++ acc) "---\n" := by
  have hmain : ∀ es : List String,
      joinNL (es ++ ["---", ""]) =
        es.foldr (fun e acc => e ++ "\n" ++ acc) "---\n" := by
    intro es
    induction es with
    | nil => decide
    | cons e es ih =>
        rw [List.cons_append, joinNL_cons_of_ne _ _ (by simp), ih]
        rfl
  rw [show (["---"] ++ es ++ ["---", ""]) = "---" :: (es ++ ["---", ""]) by
      simp,
    joinNL_cons_of_ne _ _ (by simp), hmain]
  simp [String.append_assoc]

theorem mem_of_lookup_eq_some (l : List (String × String)) (k v : String)
    (h : l.lookup k = some v) : (k, v) ∈ l := by
  induction l with
  | nil => simp [List.lookup] at h
  | cons a t ih =>
      cases a with
      | mk k' v' =>
          by_cases hk : k == k'
          · have hkk : k = k' := by simpa using hk
            simp only [List.lookup, hk] at h
            have hv : v' = v := by simpa using h
            rw [← hkk, ← hv]
            exact List.mem_cons_self _ _
          · have hkf : (k == k') = false := by simpa using hk
            simp only [List.lookup, hkf] at h
            exact List.mem_cons_of_mem _ (ih h)

theorem webhook_eval (env : TimeEnv) (p : WebhookPayload)
    (title transcript0 : String)
    (ht : p.title = some title) (htr : p.transcript = some transcript0)
    (hne : strippedEmpty transcript0 = false) :
    webhook env p =
      (if MAX_TRANSCRIPT_SIZE <
          utf8Len (if startsWithDashes transcript0 then transcript0
            else build_transcript_header env p transcript0)
       then WebhookResult.tooLarge
       else .success (if startsWithDashes transcript0 then transcript0
            else build_transcript_header env p transcript0)) := by
  rw [webhook, ht, htr]
  simp [hne]

theorem mem_headerEntries_of_mem_timing (env : TimeEnv) (p : WebhookPayload)
    (kv : String × String) (h : kv ∈ headerTiming env p) :
    kv ∈ headerEntries env p := by
  rw [headerEntries]
  refine List.mem_append_left _ ?_
  split_ifs
  · exact List.mem_append_left _ h
  · exact h

theorem headerEntries_keys (env : TimeEnv) (p : WebhookPayload) :
    ("recording_source", p.recording_source.getD "macwhisper") ∈
        headerEntries env p ∧
      ("received_at", env.nowIso) ∈ headerEntries env p ∧
      ((∃ v, ("meeting_start", v) ∈ headerEntries env p) ∨
        (∃ v, ("meeting_end", v) ∈ headerEntries env p)) := by
  refine ⟨by simp [headerEntries], by simp [headerEntries], ?_⟩
  by_cases hcond : (headerTiming env p).lookup "meeting_start" = none ∧
      (headerTiming env p).lookup "meeting_end" = none
  · right
    exact ⟨env.nowIso, by simp [headerEntries, hcond]⟩
  · rw [not_and_or] at hcond
    rcases hcond with hcond | hcond
    · obtain ⟨v, hv⟩ := Option.ne_none_iff_exists'.mp hcond
      exact Or.inl ⟨v, mem_headerEntries_of_mem_timing env p _
        (mem_of_lookup_eq_some _ _ _ hv)⟩
    · obtain ⟨v, hv⟩ := Option.ne_none_iff_exists'.mp hcond
      exact Or.inr ⟨v, mem_headerEntries_of_mem_timing env p _
        (mem_of_lookup_eq_some _ _ _ hv)⟩

/-- A trivial time environment, used to instantiate boundary cases. -/
def timeEnv0 : TimeEnv :=
  ⟨"1970-01-01T00:00:00", fun _ => "1970-01-01T00:00:00", fun _ _ => none⟩

/-- A transcript of exactly `262144 + k` UTF-8 bytes beginning with
`---` (so no header is injected and the stored bytes are the payload
bytes). -/
def boundaryTranscript (k : Nat) : String :=
  String.mk ('-' :: '-' :: '-' :: List.replicate (262141 + k) 'a')

def boundaryPayload (k : Nat) : WebhookPayload :=
  ⟨some "Design Review", some (boundaryTranscript k), none, none, none, none,
   none, none⟩

theorem boundary_data (k : Nat) :
    (boundaryTranscript k).data =
      '-' :: '-' :: '-' :: List.replicate (262141 + k) 'a' := rfl

theorem strippedEmpty_boundary (k : Nat) :
    strippedEmpty (boundaryTranscript k) = false := by
  rw [strippedEmpty, boundary_data, stripEnds]
  rw [List.dropWhile_cons, if_neg (by decide)]
  have hne :
      ('-' :: '-' :: '-' :: List.replicate (262141 + k) 'a').rdropWhile
        pyIsSpace ≠ [] := by
    rw [Ne, List.rdropWhile_eq_nil_iff]
    intro hall
    exact absurd (hall '-' (by simp)) (by decide)
  cases hcase :
      ('-' :: '-' :: '-' :: List.replicate (262141 + k) 'a').rdropWhile
        pyIsSpace with
  | nil => exact absurd hcase hne
  | cons a t => rfl

theorem startsWithDashes_boundary (k : Nat) :
    startsWithDashes (boundaryTranscript k) = true := by
  rw [startsWithDashes, boundary_data]
  rw [List.dropWhile_cons, if_neg (by decide)]
  rfl

theorem utf8Len_boundary (k : Nat) :
    utf8Len (boundaryTranscript k) = 262144 + k := by
  rw [utf8Len, boundary_data]
  have ha : Char.utf8Size 'a' = 1 := by decide
  have hd : Char.utf8Size '-' = 1 := by decide
  simp only [List.map_cons, List.map_replicate, List.sum_cons,
    List.sum_replicate, ha, hd, smul_eq_mul]
  omega

/-- C7 — transcript size limit: for every valid `/webhook` payload, the
transcript to be stored (after optional header injection) is rejected
with 413 — before any file is written — exactly when its UTF-8 byte
length exceeds 256 KiB; a stored transcript of exactly 256 KiB (262144
bytes) is accepted and written, and one of 256 KiB + 1 byte is rejected
with 413. -/
theorem webhook_transcript_size_limit :
    (∀ (env : TimeEnv) (p : WebhookPayload) (title transcript0 : String),
      p.title = some title → p.transcript = some transcript0 →
      strippedEmpty transcript0 = false →
      (MAX_TRANSCRIPT_SIZE <
          utf8Len (if startsWithDashes transcript0 then transcript0
            else build_transcript_header env p transcript0) →
        webhook env p = .tooLarge) ∧
      (utf8Len (if startsWithDashes transcript0 then transcript0
            else build_transcript_header env p transcript0) ≤
          MAX_TRANSCRIPT_SIZE →
        webhook env p = .success
          (if startsWithDashes transcript0 then transcript0
           else build_transcript_header env p transcript0))) ∧
    webhook timeEnv0 (boundaryPayload 0) = .success (boundaryTranscript 0) ∧
    webhook timeEnv0 (boundaryPayload 1) = .tooLarge := by
  refine ⟨?_, ?_, ?_⟩
  · intro env p title transcript0 ht htr hne
    rw [webhook_eval env p title transcript0 ht htr hne]
    constructor
    · intro hgt
      rw [if_pos hgt]
    · intro hle
      rw [if_neg (by omega)]
  · rw [webhook_eval timeEnv0 (boundaryPayload 0) "Design Review"
      (boundaryTranscript 0) rfl rfl (strippedEmpty_boundary 0),
      if_pos (startsWithDashes_boundary 0)]
    have h0 : ¬ (MAX_TRANSCRIPT_SIZE < utf8Len (boundaryTranscript 0)) := by
      rw [utf8Len_boundary]
      simp [MAX_TRANSCRIPT_SIZE]
    rw [if_neg h0]
  · rw [webhook_eval timeEnv0 (boundaryPayload 1) "Design Review"
      (boundaryTranscript 1) rfl rfl (strippedEmpty_boundary 1),
      if_pos (startsWithDashes_boundary 1)]
    have h1 : MAX_TRANSCRIPT_SIZE < utf8Len (boundaryTranscript 1) := by
      rw [utf8Len_boundary]
      simp [MAX_TRANSCRIPT_SIZE]
    rw [if_pos h1]

/-- Witness for C7 at a concrete small payload. -/
theorem webhook_transcript_size_limit_witness :
    webhook timeEnv0
        ⟨some "t", some "---ok", none, none, none, none, none, none⟩ =
      .success "---ok" := by
  have h := (webhook_transcript_size_limit.1 timeEnv0
    ⟨some "t", some "---ok", none, none, none, none, none, none⟩
    "t" "---ok" rfl rfl (by decide)).2
  have hsw : startsWithDashes "---ok" = true := by decide
  rw [if_pos hsw] at h
  exact h (by decide)

/-- C8 — header injection: for every accepted `/webhook` payload the
stored file is the transcript unchanged byte-for-byte when its first
non-whitespace characters are `---`, and otherwise the synthesized
front-matter header prepended to the transcript.  The synthesized header
is bracketed by `---` lines (each `key: value` entry followed by a
newline, closed by `---` and a blank line), and always contains
`recording_source`, `received_at`, and at least one of
`meeting_start`/`meeting_end` (derived from the payload timing fields or
the receipt time). -/
theorem webhook_header_injection :
    (∀ (env : TimeEnv) (p : WebhookPayload) (title transcript0 : String),
      p.title = some title → p.transcript = some transcript0 →
      strippedEmpty transcript0 = false →
      (startsWithDashes transcript0 = true →
        utf8Len transcript0 ≤ MAX_TRANSCRIPT_SIZE →
        webhook env p = .success transcript0) ∧
      (startsWithDashes transcript0 = false →
        utf8Len (build_transcript_header env p transcript0) ≤
            MAX_TRANSCRIPT_SIZE →
        webhook env p = .success (build_transcript_header env p transcript0))) ∧
    (∀ (env : TimeEnv) (p : WebhookPayload) (t : String),
      build_transcript_header env p t =
        "---\n" ++
          ((headerEntries env p).map
            (fun kv => kv.1 ++ ": " ++ kv.2)).foldr
              (fun e acc => e ++ "\n" ++ acc) "---\n" ++ t) ∧
    (∀ (env : TimeEnv) (p : WebhookPayload),
      ("recording_source", p.recording_source.getD "macwhisper") ∈
          headerEntries env p ∧
        ("received_at", env.nowIso) ∈ headerEntries env p ∧
        ((∃ v, ("meeting_start", v) ∈ headerEntries env p) ∨
          (∃ v, ("meeting_end", v) ∈ headerEntries env p))) := by
  refine ⟨?_, ?_, headerEntries_keys⟩
  · intro env p title t0 ht htr hne
    constructor
    · intro hsw hle
      rw [webhook_eval env p title t0 ht htr hne, if_pos hsw,
        if_neg (by omega)]
    · intro hsw hle
      have hna : ¬(startsWithDashes t0 = true) := by simp [hsw]
      rw [webhook_eval env p title t0 ht htr hne, if_neg hna,
        if_neg (show
          ¬(MAX_TRANSCRIPT_SIZE <
            utf8Len (build_transcript_header env p t0)) by omega)]
  · intro env p t
    rw [build_transcript_header, joinNL_wrap]

/-- A time environment with distinguishable outputs, for the C8
witness. -/
def timeEnv1 : TimeEnv :=
  ⟨"2026-02-06T12:00:00", fun d => "2026-02-06T12:00:00-" ++ toString d,
   fun s d => some (s ++ "+" ++ toString d)⟩

/-- Witness for C8 at a concrete payload without front matter. -/
theorem webhook_header_injection_witness :
    webhook timeEnv1
        ⟨some "Standup", some "hello world", none, none, none, none, none,
         none⟩ =
      .success (build_transcript_header timeEnv1
        ⟨some "Standup", some "hello world", none, none, none, none, none,
         none⟩ "hello world") :=
  (webhook_header_injection.1 timeEnv1
    ⟨some "Standup", some "hello world", none, none, none, none, none, none⟩
    "Standup" "hello world" rfl rfl (by decide)).2 (by decide) (by decide)

/-! ## Transcription appliance (src/transcriber/server/transcriber.py)

The appliance's mutable state — `active_recording`, the asyncio
transcription queue, the worker's in-flight recording and
`recent_recordings` — modeled as a transition system.  External facts
(whether the WAV file ends up ≥ 1000 bytes, whisper-cli's outcome, the
webhook response) are the environment's choices, fixed per transition.
Handlers are atomic: the FastAPI endpoints run on one event loop and
contain no await points between the state reads and writes modeled here
(`asyncio.Queue.put` on an unbounded queue does not yield), and the
worker's `recording.state = TRANSCRIBING` is the first statement of
`_transcribe`, executed before its first await. -/

/-- `RecordingState` in transcriber.py. -/
inductive RState where
  | recording
  | transcribing
  | completed
  | failed
  deriving Repr, DecidableEq

/-- A `Recording` object.  `audioOk` abstracts the filesystem fact
checked at `/stop` (`audio_path.exists() and st_size >= 1000`);
`transcriptOnDisk` whether `transcript_path.write_text` has run;
`errorSet` whether `recording.error` is non-None. -/
structure Rec where
  id : Nat
  state : RState
  webhookSent : Bool
  audioOk : Bool
  transcriptOnDisk : Bool
  errorSet : Bool
  deriving Repr, DecidableEq

/-- `Recording.__init__`: a fresh recording starts in state RECORDING
with `webhook_sent = False` and no transcript or error. -/
def freshRec (id : Nat) (audioOk : Bool) : Rec :=
  ⟨id, .recording, false, audioOk, false, false⟩

/-- Outcome of the whisper-cli subprocess (external collaborator):
nonzero exit, empty stdout after strip, or usable output. -/
inductive WhisperResult where
  | exitNonzero
  | emptyOutput
  | ok
  deriving Repr, DecidableEq

/-- Outcome of the webhook POST: an HTTP status, or an I/O error raised
by the client (connection refused, timeout, ...). -/
inductive WebhookOutcome where
  | status (code : Nat)
  | ioError
  deriving Repr, DecidableEq

/-- `_transcribe(recording)` as a state transformer on the recording,
returning the recording and the number of webhook POST attempts made.
Control flow of transcriber.py lines 383–465: set TRANSCRIBING; on
nonzero exit or empty output set FAILED with an error and return (no
webhook attempted); otherwise write the transcript file, POST once to
the webhook — a 200 sets `webhook_sent = True`, any other status only
logs a warning — then set COMPLETED; an exception during the POST is
caught by the outer handler, which sets FAILED with the error string.
No branch retries the POST. -/
def transcribe_step (r : Rec) (w : WhisperResult) (wh : WebhookOutcome) :
    Rec × Nat :=
  let r1 := { r with state := RState.transcribing }
  match w with
  | .exitNonzero => ({ r1 with state := RState.failed, errorSet := true }, 0)
  | .emptyOutput => ({ r1 with state := RState.failed, errorSet := true }, 0)
  | .ok =>
      let r2 := { r1 with transcriptOnDisk := true }
      match wh with
      | .status code =>
          if code = 200 then
            ({ r2 with webhookSent := true, state := RState.completed }, 1)
          else
            ({ r2 with state := RState.completed }, 1)
      | .ioError =>
          ({ r2 with state := RState.failed, errorSet := true }, 1)

/-- The appliance's process-wide state. -/
structure App where
  active : Option Rec
  queue : List Rec
  inflight : Option Rec
  recent : List Rec
  nextId : Nat
  deriving Repr, DecidableEq

def appInit : App := ⟨none, [], none, [], 0⟩

def MAX_RECENT : Nat := 20

/-- `_archive_recording`: insert at the front of `recent_recordings`,
then pop from the end while longer than `MAX_RECENT`. -/
def archive_recording (r : Rec) (recent : List Rec) : List Rec :=
  (r :: recent).take MAX_RECENT

/-- `/start`: 409 (`none`) iff the active recording is in state
RECORDING; otherwise create a fresh RECORDING and make it active.
`audioOk` is the environment's choice of whether the capture will have
produced a ≥ 1 KB WAV by the time `/stop` runs. -/
def start_endpoint (s : App) (audioOk : Bool) : Option App :=
  match s.active with
  | some r =>
      if r.state = RState.recording then none
      else some { s with active := some (freshRec s.nextId audioOk),
                         nextId := s.nextId + 1 }
  | none => some { s with active := some (freshRec s.nextId audioOk),
                          nextId := s.nextId + 1 }

/-- HTTP outcome of `/stop`: 404, 500 (no audio captured), or 200 with
`{status: "transcribing"}`. -/
inductive StopResult where
  | notFound
  | audioMissing
  | transcribing
  deriving Repr, DecidableEq

/-- The recording after the `/stop` failure path sets
`state = FAILED` and `error = "Audio file missing or too small"`. -/
def failedOf (r : Rec) : Rec :=
  { r with state := RState.failed, errorSet := true }

/-- Appliance state after the `/stop` 500 path: the failed recording is
archived and the active slot cleared. -/
def stopFailState (s : App) (r : Rec) : App :=
  { s with active := none,
           recent := archive_recording (failedOf r) s.recent }

/-- Appliance state after the `/stop` 200 path: the recording is
enqueued (still in state RECORDING) and the active slot cleared. -/
def stopOkState (s : App) (r : Rec) : App :=
  { s with active := none, queue := s.queue ++ [r] }

/-- `/stop`: 404 when there is no active recording in state RECORDING;
then, after finalizing the WAV, a missing or < 1 KB audio file marks the
recording FAILED, archives it and returns 500; otherwise the recording
is enqueued for transcription and 200 is returned.  Both non-404 paths
clear `active_recording`. -/
def stop_endpoint (s : App) : StopResult × App :=
  match s.active with
  | none => (.notFound, s)
  | some r =>
      if r.state ≠ RState.recording then (.notFound, s)
      else if ¬ r.audioOk then (.audioMissing, stopFailState s r)
      else (.transcribing, stopOkState s r)

/-- `/retranscribe` success path (`fileOk`: the file exists, is a
`.wav` and is ≥ 1000 bytes): constructs a fresh `Recording` — whose
state is RECORDING, from the constructor — and puts it on the queue.
The 404/400 failure paths change no state. -/
def retranscribe_endpoint (s : App) (fileOk : Bool) : App :=
  if fileOk then
    { s with queue := s.queue ++ [freshRec s.nextId true],
             nextId := s.nextId + 1 }
  else s

/-- One transition of the appliance: an HTTP handler runs, or the
transcription worker makes one step (dequeue + set TRANSCRIBING, or
finish a transcription and archive). -/
inductive Step : App → App → Prop where
  | start (s : App) (audioOk : Bool) (s' : App)
      (h : start_endpoint s audioOk = some s') : Step s s'
  | stop (s : App) : Step s (stop_endpoint s).2
  | retranscribe (s : App) (fileOk : Bool) :
      Step s (retranscribe_endpoint s fileOk)
  | dequeue (s : App) (r : Rec) (rest : List Rec)
      (h1 : s.inflight = none) (h2 : s.queue = r :: rest) :
      Step s { s with inflight := some { r with state := RState.transcribing },
                      queue := rest }
  | finish (s : App) (r : Rec) (w : WhisperResult) (wh : WebhookOutcome)
      (h : s.inflight = some r) :
      Step s { s with inflight := none,
                      recent := archive_recording (transcribe_step r w wh).1
                        s.recent }

/-- Number of RECORDING-state objects in a list. -/
def countRecording (l : List Rec) : Nat :=
  (l.filter (fun r => r.state == RState.recording)).length

def optList : Option Rec → List Rec
  | none => []
  | some r => [r]

/-- All Recording objects owned by the appliance. -/
def allRecs (s : App) : List Rec :=
  optList s.active ++ s.queue ++ optList s.inflight ++ s.recent

def recordingCount (s : App) : Nat := countRecording (allRecs s)

/-- RECORDING-state objects not waiting in the transcription queue. -/
def countOutsideQueue (s : App) : Nat :=
  countRecording (optList s.active ++ optList s.inflight ++ s.recent)

/-! ### Appliance lemmas -/

theorem transcribe_step_not_recording (r : Rec) (w : WhisperResult)
    (wh : WebhookOutcome) :
    (transcribe_step r w wh).1.state ≠ RState.recording := by
  cases w with
  | exitNonzero => simp [transcribe_step]
  | emptyOutput => simp [transcribe_step]
  | ok =>
      cases wh with
      | status code => by_cases h : code = 200 <;> simp [transcribe_step, h]
      | ioError => simp [transcribe_step]

/-- Outcome analysis of `/stop`. -/
theorem stop_endpoint_cases (s : App) :
    (stop_endpoint s).2 = s ∨
    (∃ r, s.active = some r ∧ r.state = RState.recording ∧
      r.audioOk = false ∧ (stop_endpoint s).2 = stopFailState s r) ∨
    (∃ r, s.active = some r ∧ r.state = RState.recording ∧
      r.audioOk = true ∧ (stop_endpoint s).2 = stopOkState s r) := by
  cases hA : s.active with
  | none => left; simp [stop_endpoint, hA]
  | some r =>
      by_cases hr : r.state = RState.recording
      · by_cases hok : r.audioOk
        · right; right
          exact ⟨r, rfl, hr, hok, by simp [stop_endpoint, hA, hr, hok]⟩
        · right; left
          refine ⟨r, rfl, hr, by simpa using hok, ?_⟩
          simp [stop_endpoint, hA, hr, hok]
      · left
        simp [stop_endpoint, hA, hr]

/-- The induction invariant: archived and in-flight recordings are never
in state RECORDING. -/
def Inv (s : App) : Prop :=
  (∀ r ∈ s.recent, r.state ≠ RState.recording) ∧
  (∀ r : Rec, s.inflight = some r → r.state ≠ RState.recording)

theorem inv_step (s s' : App) (hinv : Inv s) (hs : Step s s') : Inv s' := by
  cases hs with
  | start audioOk s' h =>
      cases hA : s.active with
      | none =>
          simp only [start_endpoint, hA] at h
          have h' := (Option.some.injEq _ _).mp h
          rw [← h']
          exact ⟨hinv.1, hinv.2⟩
      | some r0 =>
          simp only [start_endpoint, hA] at h
          by_cases hr : r0.state = RState.recording
          · rw [if_pos hr] at h
            cases h
          · rw [if_neg hr] at h
            have h' := (Option.some.injEq _ _).mp h
            rw [← h']
            exact ⟨hinv.1, hinv.2⟩
  | stop =>
      rcases stop_endpoint_cases s with h | ⟨r, hA, hr, hok, h⟩ |
        ⟨r, hA, hr, hok, h⟩
      · rw [h]; exact hinv
      · rw [h]
        refine ⟨?_, hinv.2⟩
        intro x hx
        simp only [stopFailState, archive_recording] at hx
        have hx' := List.take_subset _ _ hx
        rcases List.mem_cons.mp hx' with hx' | hx'
        · rw [hx']
          simp [failedOf]
        · exact hinv.1 x hx'
      · rw [h]
        exact ⟨hinv.1, hinv.2⟩
  | retranscribe fileOk =>
      rw [retranscribe_endpoint]
      split_ifs
      · exact ⟨hinv.1, hinv.2⟩
      · exact hinv
  | dequeue r rest h1 h2 =>
      refine ⟨hinv.1, ?_⟩
      intro x hx
      have hx' := (Option.some.injEq _ _).mp hx
      rw [← hx']
      simp
  | finish r w wh h =>
      refine ⟨?_, by intro x hx; cases hx⟩
      intro x hx
      simp only [archive_recording] at hx
      have hx' := List.take_subset _ _ hx
      rcases List.mem_cons.mp hx' with hx' | hx'
      · rw [hx']
        exact transcribe_step_not_recording r w wh
      · exact hinv.1 x hx'

theorem inv_reachable (s : App)
    (h : Relation.ReflTransGen Step appInit s) : Inv s := by
  induction h with
  | refl => exact ⟨by simp [appInit], by simp [appInit]⟩
  | tail hab hbc ih => exact inv_step _ _ ih hbc

theorem countRecording_append (l1 l2 : List Rec) :
    countRecording (l1 ++ l2) = countRecording l1 + countRecording l2 := by
  simp [countRecording]

theorem countRecording_eq_zero (l : List Rec)
    (h : ∀ r ∈ l, r.state ≠ RState.recording) : countRecording l = 0 := by
  rw [countRecording, List.length_eq_zero, List.filter_eq_nil_iff]
  intro r hr
  simp [h r hr]

theorem countOutsideQueue_le_one (s : App) (hinv : Inv s) :
    countOutsideQueue s ≤ 1 := by
  rw [countOutsideQueue, countRecording_append, countRecording_append]
  have h1 : countRecording (optList s.active) ≤ 1 := by
    cases s.active with
    | none => simp [optList, countRecording]
    | some r =>
        calc countRecording [r] ≤ ([r] : List Rec).length :=
              List.length_filter_le _ _
          _ = 1 := rfl
  have h2 : countRecording (optList s.inflight) = 0 := by
    cases hI : s.inflight with
    | none => rfl
    | some r =>
        refine countRecording_eq_zero [r] ?_
        intro x hx
        rw [List.mem_singleton] at hx
        rw [hx]
        exact hinv.2 r hI
  have h3 : countRecording s.recent = 0 := countRecording_eq_zero _ hinv.1
  omega

/-- C5 counterexample — the invariant "at most one Recording in state
RECORDING" is violated by the reachable trace /start, /stop, /start: the
first recording sits in the transcription queue still in state RECORDING
(the worker has not dequeued it) while the second is actively recording,
so the count is 2. -/
theorem single_recording_counterexample :
    Relation.ReflTransGen Step appInit
      ⟨some (freshRec 1 true), [freshRec 0 true], none, [], 2⟩ ∧
    recordingCount ⟨some (freshRec 1 true), [freshRec 0 true], none, [], 2⟩
      = 2 := by
  constructor
  · have h1 : Step appInit ⟨some (freshRec 0 true), [], none, [], 1⟩ :=
      Step.start _ true _ (by decide)
    have heq : (stop_endpoint ⟨some (freshRec 0 true), [], none, [], 1⟩).2 =
        ⟨none, [freshRec 0 true], none, [], 1⟩ := by decide
    have h2 : Step ⟨some (freshRec 0 true), [], none, [], 1⟩
        ⟨none, [freshRec 0 true], none, [], 1⟩ :=
      heq ▸ Step.stop ⟨some (freshRec 0 true), [], none, [], 1⟩
    have h3 : Step ⟨none, [freshRec 0 true], none, [], 1⟩
        ⟨some (freshRec 1 true), [freshRec 0 true], none, [], 2⟩ :=
      Step.start _ true _ (by decide)
    exact Relation.ReflTransGen.head h1
      (Relation.ReflTransGen.head h2 (Relation.ReflTransGen.single h3))
  · decide

/-- C5 amended — in every reachable appliance state, at most one
Recording *outside the transcription queue* is in state RECORDING (the
active slot); recordings handed to the queue by `/stop` or
`/retranscribe` keep state RECORDING until the worker dequeues them, so
the global count is not bounded by 1. -/
theorem single_recording_amended (s : App)
    (h : Relation.ReflTransGen Step appInit s) :
    countOutsideQueue s ≤ 1 :=
  countOutsideQueue_le_one s (inv_reachable s h)

/-- Witness for the amended C5 at the initial state. -/
theorem single_recording_amended_witness :
    countOutsideQueue appInit ≤ 1 :=
  single_recording_amended appInit Relation.ReflTransGen.refl

theorem self_mem_archive (r : Rec) (l : List Rec) :
    r ∈ archive_recording r l := by
  rw [archive_recording, MAX_RECENT]
  have h : (r :: l).take 20 = r :: l.take 19 := rfl
  rw [h]
  exact List.mem_cons_self _ _

/-- C6 — `/stop` result semantics: 404 if and only if there is no
active recording in state RECORDING; otherwise if the finalized audio
file is absent or smaller than 1 KB the recording becomes FAILED, is
archived, the response is 500 and the queue is unchanged (the recording
is never enqueued, so the worker never posts a webhook for it);
otherwise the response is 200 with status "transcribing" and the
recording is appended to the transcription queue. -/
theorem stop_semantics (s : App) :
    ((stop_endpoint s).1 = StopResult.notFound ↔
      ¬ ∃ r, s.active = some r ∧ r.state = RState.recording) ∧
    (∀ r : Rec, s.active = some r → r.state = RState.recording →
      r.audioOk = false →
      (stop_endpoint s).1 = StopResult.audioMissing ∧
      (stop_endpoint s).2.active = none ∧
      (stop_endpoint s).2.queue = s.queue ∧
      failedOf r ∈ (stop_endpoint s).2.recent) ∧
    (∀ r : Rec, s.active = some r → r.state = RState.recording →
      r.audioOk = true →
      (stop_endpoint s).1 = StopResult.transcribing ∧
      (stop_endpoint s).2.active = none ∧
      (stop_endpoint s).2.queue = s.queue ++ [r]) := by
  refine ⟨?_, ?_, ?_⟩
  · cases hA : s.active with
    | none => simp [stop_endpoint, hA]
    | some r =>
        by_cases hr : r.state = RState.recording
        · by_cases hok : r.audioOk <;> simp [stop_endpoint, hA, hr, hok]
        · simp [stop_endpoint, hA, hr]
  · intro r hA hr hok
    have hne : ¬ (r.state ≠ RState.recording) := by simp [hr]
    have hnok : ¬ r.audioOk = true := by simp [hok]
    have h2 : stop_endpoint s = (StopResult.audioMissing, stopFailState s r)
        := by simp [stop_endpoint, hA, hne, hnok]
    rw [h2]
    exact ⟨rfl, rfl, rfl, self_mem_archive _ _⟩
  · intro r hA hr hok
    have hne : ¬ (r.state ≠ RState.recording) := by simp [hr]
    have h2 : stop_endpoint s = (StopResult.transcribing, stopOkState s r)
        := by simp [stop_endpoint, hA, hne, hok]
    rw [h2]
    exact ⟨rfl, rfl, rfl⟩

/-- Witness for C6 at concrete states: no active recording (404), an
active recording with good audio (200), and one with missing audio
(500). -/
theorem stop_semantics_witness :
    (stop_endpoint appInit).1 = StopResult.notFound ∧
    (stop_endpoint ⟨some (freshRec 0 true), [], none, [], 1⟩).1 =
      StopResult.transcribing ∧
    (stop_endpoint ⟨some (freshRec 0 false), [], none, [], 1⟩).1 =
      StopResult.audioMissing :=
  ⟨(stop_semantics appInit).1.mpr (by simp [appInit]),
   ((stop_semantics _).2.2 (freshRec 0 true) rfl rfl rfl).1,
   ((stop_semantics _).2.1 (freshRec 0 false) rfl rfl rfl).1⟩

/-- C10 counterexample — after a successful `/stop` (200) the stopped
recording has been enqueued but has NOT been added to
`recent_recordings`: archiving happens only later, in the worker's
`finally` block.  Concretely, stopping from a state with an empty recent
list returns 200 and leaves the recent list empty. -/
theorem stop_archive_counterexample :
    (stop_endpoint ⟨some (freshRec 0 true), [], none, [], 1⟩).1 =
      StopResult.transcribing ∧
    (stop_endpoint ⟨some (freshRec 0 true), [], none, [], 1⟩).2.recent =
      [] := by
  decide

/-- C10 amended — every completed `/stop` of an active RECORDING clears
the active slot, so an immediately following `/start` is not rejected
with 409; on the 500 path the failed recording is archived immediately,
while on the 200 path it is enqueued and the recent list is unchanged
(it is archived only later by the worker). -/
theorem stop_releases_slot (s : App) (r : Rec)
    (hA : s.active = some r) (hr : r.state = RState.recording) :
    (stop_endpoint s).2.active = none ∧
    (start_endpoint (stop_endpoint s).2 true).isSome = true ∧
    (r.audioOk = false → failedOf r ∈ (stop_endpoint s).2.recent) ∧
    (r.audioOk = true → r ∈ (stop_endpoint s).2.queue ∧
      (stop_endpoint s).2.recent = s.recent) := by
  have hne : ¬ (r.state ≠ RState.recording) := by simp [hr]
  by_cases hok : r.audioOk
  · have h2 : stop_endpoint s = (StopResult.transcribing, stopOkState s r)
        := by simp [stop_endpoint, hA, hne, hok]
    rw [h2]
    exact ⟨rfl, rfl, by simp [hok], fun _ => ⟨by simp [stopOkState], rfl⟩⟩
  · have hnok : ¬ r.audioOk = true := by simp [hok]
    have h2 : stop_endpoint s = (StopResult.audioMissing, stopFailState s r)
        := by simp [stop_endpoint, hA, hne, hnok]
    rw [h2]
    exact ⟨rfl, rfl, fun _ => self_mem_archive _ _,
      fun htrue => absurd htrue hnok⟩

/-- Witness for the amended C10 at a concrete state. -/
theorem stop_releases_slot_witness :
    (stop_endpoint ⟨some (freshRec 0 true), [], none, [], 1⟩).2.active =
      none ∧
    (start_endpoint
      (stop_endpoint ⟨some (freshRec 0 true), [], none, [], 1⟩).2
      true).isSome = true :=
  ⟨(stop_releases_slot _ (freshRec 0 true) rfl rfl).1,
   (stop_releases_slot _ (freshRec 0 true) rfl rfl).2.1⟩

/-- C4 counterexample — the claim "a webhook I/O error still leaves the
recording COMPLETED" is false: an exception during the POST is caught by
the outer handler of `_transcribe`, which sets the state to FAILED. -/
theorem webhook_failure_counterexample :
    (transcribe_step (freshRec 0 true) .ok .ioError).1.state =
      RState.failed ∧
    RState.failed ≠ RState.completed := by
  decide

/-- C4 amended — when transcription succeeds and the webhook POST
returns a non-200 status, the recording ends COMPLETED with
`webhook_sent = false`, the transcript file remains on disk and exactly
one POST was attempted (no retry); but when the POST raises an I/O
error, the recording ends FAILED (with `error` set), still with
`webhook_sent = false`, the transcript file on disk, and no retry. -/
theorem webhook_failure_amended :
    (∀ (r : Rec) (code : Nat), r.webhookSent = false → code ≠ 200 →
      (transcribe_step r .ok (.status code)).1.state = RState.completed ∧
      (transcribe_step r .ok (.status code)).1.webhookSent = false ∧
      (transcribe_step r .ok (.status code)).1.transcriptOnDisk = true ∧
      (transcribe_step r .ok (.status code)).2 = 1) ∧
    (∀ r : Rec, r.webhookSent = false →
      (transcribe_step r .ok .ioError).1.state = RState.failed ∧
      (transcribe_step r .ok .ioError).1.webhookSent = false ∧
      (transcribe_step r .ok .ioError).1.transcriptOnDisk = true ∧
      (transcribe_step r .ok .ioError).1.errorSet = true ∧
      (transcribe_step r .ok .ioError).2 = 1) := by
  constructor
  · intro r code hws hcode
    simp [transcribe_step, hcode, hws]
  · intro r hws
    simp [transcribe_step, hws]

/-- Witness for the amended C4 at a concrete recording. -/
theorem webhook_failure_amended_witness :
    (transcribe_step (freshRec 0 true) .ok (.status 500)).1.state =
      RState.completed ∧
    (transcribe_step (freshRec 1 true) .ok .ioError).1.state =
      RState.failed :=
  ⟨(webhook_failure_amended.1 (freshRec 0 true) 500 rfl (by decide)).1,
   (webhook_failure_amended.2 (freshRec 1 true) rfl).1⟩

end MeetingNotes
